import Mathlib

/-!
Verification development for the EpicStyle repository, a static style
checker for C source files written in Go.  The repository contains two
implementations of the same checker: a monolithic CLI (`main.go`) and a
package-structured variant (`pkg/analyzer`, `pkg/rules`, `cmd/epicstyle`).
Both are embedded below.  Lines are modelled as lists of characters; all
inputs considered in the theorems are ASCII, where Go's byte-based string
indexing and character counting agree.  Floating-point scores are modelled
over ℚ: every scoring computation in the source manipulates values that
are exactly representable, so the rational model is exact on the inputs at
stake.  Go `regexp` patterns used by the package rules are hand-compiled
into deterministic character-list parsers; each pattern only combines the
pairwise-disjoint classes `\s` and `\w` with literals, so leftmost
matching is deterministic and the translation is direct.
-/

namespace EpicStyle

/-- One raw source line (or a whole file content), as a list of characters. -/
abbrev Line := List Char

/-- Characters of a string literal, for writing concrete lines. -/
def str (s : String) : Line := s.data

/-- Whitespace test (Go `unicode.IsSpace` / regexp `\s`, on ASCII both agree
with `Char.isWhitespace` for the characters that occur in the inputs). -/
def ws (c : Char) : Bool := c.isWhitespace

/-- `strings.TrimSpace(line) == ""`: the line is blank. -/
def blankLine (l : Line) : Bool := l.all ws

/-- `strings.TrimSpace`. -/
def trimLine (l : Line) : Line := ((l.dropWhile ws).reverse.dropWhile ws).reverse

/-- `strings.Contains l pat` (substring containment). -/
def containsSub (l pat : Line) : Bool := l.tails.any (fun t => pat.isPrefixOf t)

/-- `strings.Count l c` for a one-character pattern. -/
def countChar (c : Char) (l : Line) : Nat := l.count c

/-- `strings.Split(content, "\n")`: every segment, including a trailing
empty one when the content ends in a newline. -/
def splitNl : Line → List Line
  | [] => [[]]
  | c :: rest =>
    if c = '\n' then [] :: splitNl rest
    else
      match splitNl rest with
      | [] => [[c]]
      | h :: t => (c :: h) :: t

/-- Lines produced by `bufio.Scanner` over the whole content
(`pkg/analyzer` `ReadFile`): like `splitNl`, except that a trailing
newline (or an empty file) yields no final empty token.  (The scanner also
strips a carriage return before the newline; the contents considered here
contain none.) -/
def scanLines (content : Line) : List Line :=
  let parts := splitNl content
  if parts.getLast? = some [] then parts.dropLast else parts

/-- Go regexp `\w` (ASCII): letters, digits, underscore. -/
def isWordChar (c : Char) : Bool := c.isAlphanum || c = '_'

/-- Skip the leading `\s*`. -/
def dropWs (l : Line) : Line := l.dropWhile ws

/-- Maximal leading `\w*` run. -/
def takeWord (l : Line) : Line := l.takeWhile isWordChar

/-- Rest after the maximal leading `\w*` run. -/
def dropWord (l : Line) : Line := l.dropWhile isWordChar

/-- `strings.Fields`: maximal runs of non-whitespace characters. -/
def fieldsOf (l : Line) : List Line := (l.splitOnP ws).filter (fun w => !w.isEmpty)

/-- `path/filepath.Base`: the final path element. -/
def baseName (f : Line) : Line := (f.reverse.takeWhile (fun c => c ≠ '/')).reverse

/-- `strings.TrimSuffix(f, filepath.Ext(f))`: drop the suffix that starts at
the final dot, when there is one. -/
def stripExt (f : Line) : Line :=
  if f.contains '.' then ((f.reverse.dropWhile (fun c => c ≠ '.')).drop 1).reverse else f

/-- One detected non-conformance (`rules.Violation` / the monolith's
`Violation`; the `Column` field of the package struct is never set and is
omitted). -/
structure Violation where
  rule : String
  message : String
  line : Nat
  severity : String
  description : String := ""
deriving DecidableEq, Repr

/-- Per-file analysis result (`analyzer.FileResult` / the monolith's
`FileResult`). -/
structure FileResult where
  filename : Line
  violations : List Violation
  score : ℚ
  lineCount : Nat
deriving DecidableEq, Repr

namespace Pkg

/-- `rules.FileContext`: the view a package rule operates on.  The `Content`
and `IsHeader` fields of the Go struct are read by no rule and are omitted. -/
structure FileContext where
  filename : Line
  lines : List Line

/-- The seven primitive-type keywords of the package rules' regexps; their
first letters are pairwise distinct, so the alternation is deterministic. -/
def typeKws : List Line :=
  [str "int", str "char", str "float", str "double", str "long", str "short", str "unsigned"]

/-- The alternative `(int|char|float|double|long|short|unsigned)` matched as
a literal prefix. -/
def matchTypeKw (l : Line) : Option Line := typeKws.find? (fun k => k.isPrefixOf l)

/-- Regexp `^\s*\w+\s+(\w+)\s*\(`: returns the captured second word. -/
def matchFuncName (l : Line) : Option Line :=
  let l1 := dropWs l
  let w1 := takeWord l1
  if w1.isEmpty then none else
  let l2 := dropWord l1
  match l2 with
  | [] => none
  | c :: _ =>
    if !ws c then none else
    let l3 := dropWs l2
    let w2 := takeWord l3
    if w2.isEmpty then none else
    match dropWs (dropWord l3) with
    | '(' :: _ => some w2
    | _ => none

/-- Regexp `^\s*\w+\s+(\w+)\s*\(([^)]*)\)`: the captured name, the captured
parameter text, and the rest after the closing parenthesis. -/
def matchFuncParen (l : Line) : Option (Line × Line × Line) :=
  let l1 := dropWs l
  let w1 := takeWord l1
  if w1.isEmpty then none else
  let l2 := dropWord l1
  match l2 with
  | [] => none
  | c :: _ =>
    if !ws c then none else
    let l3 := dropWs l2
    let w2 := takeWord l3
    if w2.isEmpty then none else
    match dropWs (dropWord l3) with
    | '(' :: rest =>
      let params := rest.takeWhile (fun d => d ≠ ')')
      match rest.drop params.length with
      | ')' :: rest2 => some (w2, params, rest2)
      | _ => none
    | _ => none

/-- Regexp `^\s*\w+\s+(\w+)\s*\([^)]*\)\s*$`: `matchFuncParen` with nothing
but whitespace after the closing parenthesis. -/
def matchFuncSigFull (l : Line) : Option Line :=
  match matchFuncParen l with
  | some (name, _, rest2) => if (dropWs rest2).isEmpty then some name else none
  | none => none

/-- Regexp `^\s*#define\s+(\w+)`: the captured macro name. -/
def matchDefine (l : Line) : Option Line :=
  let l1 := dropWs l
  if (str "#define").isPrefixOf l1 then
    let l2 := l1.drop 7
    match l2 with
    | [] => none
    | c :: _ =>
      if !ws c then none else
      let w := takeWord (dropWs l2)
      if w.isEmpty then none else some w
  else none

/-- Regexp `^\s*(int|char|float|double|long|short|unsigned)\s+\w+\s*,\s*\w+`. -/
def matchMultiDecl (l : Line) : Bool :=
  let l1 := dropWs l
  match matchTypeKw l1 with
  | none => false
  | some k =>
    match l1.drop k.length with
    | [] => false
    | c :: _ =>
      if !ws c then false else
      let l3 := dropWs (l1.drop k.length)
      let w := takeWord l3
      if w.isEmpty then false else
      match dropWs (dropWord l3) with
      | ',' :: rest => !(takeWord (dropWs rest)).isEmpty
      | _ => false

/-- Regexp `^\s*(int|char|float|double|long|short|unsigned)\s+\w+`. -/
def matchVarDecl (l : Line) : Bool :=
  let l1 := dropWs l
  match matchTypeKw l1 with
  | none => false
  | some k =>
    match l1.drop k.length with
    | [] => false
    | c :: _ =>
      if !ws c then false else
      !(takeWord (dropWs (l1.drop k.length))).isEmpty

/-- Regexp `^\s*(int|char|float|double|long|short|unsigned)\s+\w+\s*[=;]`. -/
def matchGlobalVar (l : Line) : Bool :=
  let l1 := dropWs l
  match matchTypeKw l1 with
  | none => false
  | some k =>
    match l1.drop k.length with
    | [] => false
    | c :: _ =>
      if !ws c then false else
      let l3 := dropWs (l1.drop k.length)
      let w := takeWord l3
      if w.isEmpty then false else
      match dropWs (dropWord l3) with
      | '=' :: _ => true
      | ';' :: _ => true
      | _ => false

/-- Regexp `for\s*\(\s*(int|char|float|double|long|short|unsigned)\s+\w+`
anchored at the start of `l`. -/
def matchForDeclAt (l : Line) : Bool :=
  if (str "for").isPrefixOf l then
    match dropWs (l.drop 3) with
    | '(' :: rest =>
      let l2 := dropWs rest
      match matchTypeKw l2 with
      | some k =>
        match l2.drop k.length with
        | [] => false
        | c :: _ =>
          if !ws c then false else
          !(takeWord (dropWs (l2.drop k.length))).isEmpty
      | none => false
    | _ => false
  else false

/-- The same regexp searched anywhere in the line (`MatchString` is
unanchored). -/
def matchForDecl (l : Line) : Bool := l.tails.any matchForDeclAt

/-- Package `isSnakeCase` (`unicode.IsLower`/`IsDigit` on ASCII). -/
def isSnakeCase (s : Line) : Bool :=
  if s.isEmpty then false else
  (s.all fun c => c.isLower || c.isDigit || c = '_') &&
    !(s.head? = some '_') && !(s.getLast? = some '_')

/-- Package `isScreamingSnakeCase`. -/
def isScreamingSnakeCase (s : Line) : Bool :=
  if s.isEmpty then false else
  (s.all fun c => c.isUpper || c.isDigit || c = '_') &&
    !(s.head? = some '_') && !(s.getLast? = some '_')

/-- `LineLengthRule.Check` (C-L1, level 1). -/
def LineLengthRule.check (ctx : FileContext) : List Violation :=
  ctx.lines.enum.flatMap fun p =>
    if p.2.length > 80 then
      [{ rule := "C-L1", message := "Ligne trop longue", line := p.1 + 1,
         severity := "major", description := "La ligne contient plus de 80 caractères" }]
    else []

/-- The consecutive-blank-lines loop of `EmptyLinesRule.Check`: indices
`(i, i+1)` with both lines blank report line `i + 2`. -/
def consecEmptyPkg (i : Nat) : List Line → List Violation
  | a :: b :: rest =>
    (if blankLine a && blankLine b then
      [{ rule := "C-L2", message := "Lignes vides consécutives", line := i + 2,
         severity := "major" }]
     else []) ++ consecEmptyPkg (i + 1) (b :: rest)
  | _ => []

/-- `EmptyLinesRule.Check` (C-L2, level 1).  Note the source emits severity
"major" here. -/
def EmptyLinesRule.check (ctx : FileContext) : List Violation :=
  let lines := ctx.lines
  if lines.isEmpty then [] else
  (if blankLine (lines.headD []) then
    [{ rule := "C-L2", message := "Ligne vide en début de fichier", line := 1,
       severity := "major" }]
   else []) ++
  (if blankLine (lines.getLastD []) then
    [{ rule := "C-L2", message := "Ligne vide en fin de fichier", line := lines.length,
       severity := "major" }]
   else []) ++
  consecEmptyPkg 0 lines

/-- `IndentationRule.Check` (C-L3, level 1): a line containing four
consecutive spaces. -/
def IndentationRule.check (ctx : FileContext) : List Violation :=
  ctx.lines.enum.flatMap fun p =>
    if containsSub p.2 (str "    ") then
      [{ rule := "C-L3", message := "Utilisation d'espaces au lieu de tabulations",
         line := p.1 + 1, severity := "minor" }]
    else []

/-- `VariableDeclarationRule.Check` (C-L4, level 1). -/
def VariableDeclarationRule.check (ctx : FileContext) : List Violation :=
  ctx.lines.enum.flatMap fun p =>
    if matchMultiDecl p.2 then
      [{ rule := "C-L4", message := "Plusieurs variables déclarées sur une ligne",
         line := p.1 + 1, severity := "major" }]
    else []

/-- `FilenameRule.Check` (C-O1, level 1). -/
def FilenameRule.check (ctx : FileContext) : List Violation :=
  let nameWithoutExt := stripExt (baseName ctx.filename)
  if !isSnakeCase nameWithoutExt then
    [{ rule := "C-O1", message := "Nom de fichier non conforme au snake_case", line := 1,
       severity := "major",
       description := "Le nom de fichier doit être en snake_case (ex: mon_fichier.c)" }]
  else []

/-- `FunctionNamingRule.Check` (C-F1, level 1). -/
def FunctionNamingRule.check (ctx : FileContext) : List Violation :=
  ctx.lines.enum.flatMap fun p =>
    match matchFuncName p.2 with
    | some funcName =>
      if funcName ≠ str "main" && !isSnakeCase funcName then
        [{ rule := "C-F1", message := "Nom de fonction non conforme au snake_case",
           line := p.1 + 1, severity := "major",
           description := "Le nom de fonction '" ++ String.mk funcName ++
             "' doit être en snake_case" }]
      else []
    | none => []

/-- `MacroNamingRule.Check` (C-F2, level 1). -/
def MacroNamingRule.check (ctx : FileContext) : List Violation :=
  ctx.lines.enum.flatMap fun p =>
    match matchDefine p.2 with
    | some macroName =>
      if !isScreamingSnakeCase macroName then
        [{ rule := "C-F2", message := "Nom de macro non conforme au SCREAMING_SNAKE_CASE",
           line := p.1 + 1, severity := "major",
           description := "Le nom de macro '" ++ String.mk macroName ++
             "' doit être en SCREAMING_SNAKE_CASE" }]
      else []
    | none => []

/-- The stateful loop of `FunctionLengthRule.Check` (C-F3, level 1).  The
source's length description interpolates `strings.Repeat("", funcLength)`,
which is always the empty string. -/
def funcLengthAux (i : Nat) (inFunction : Bool) (funcStart : Nat) (funcName : Line)
    (braceCount : Int) : List Line → List Violation
  | [] => []
  | line :: rest =>
    let st :=
      match matchFuncSigFull line with
      | some name => (true, i + 1, name, (0 : Int))
      | none => (inFunction, funcStart, funcName, braceCount)
    if st.1 then
      let bc := st.2.2.2 + (countChar '{' line : Int) - (countChar '}' line : Int)
      if bc = 0 && line.contains '}' then
        (if ((i : Int) + 1) - st.2.1 + 1 > 25 then
          [{ rule := "C-F3", message := "Fonction trop longue", line := st.2.1,
             severity := "major",
             description := "La fonction '" ++ String.mk st.2.2.1 ++ "' fait " ++
               "" ++ " lignes (max: 25)" }]
         else []) ++ funcLengthAux (i + 1) false st.2.1 st.2.2.1 bc rest
      else funcLengthAux (i + 1) true st.2.1 st.2.2.1 bc rest
    else funcLengthAux (i + 1) false st.2.1 st.2.2.1 st.2.2.2 rest

/-- `FunctionLengthRule.Check` (C-F3, level 1). -/
def FunctionLengthRule.check (ctx : FileContext) : List Violation :=
  funcLengthAux 0 false 0 [] 0 ctx.lines

/-- `FileMaxFunctionsRule.Check` (C-O2, level 1). -/
def FileMaxFunctionsRule.check (ctx : FileContext) : List Violation :=
  let functionCount :=
    ctx.lines.countP fun line =>
      match matchFuncSigFull line with
      | some name => name ≠ str "main"
      | none => false
  if functionCount > 3 then
    [{ rule := "C-O2", message := "Trop de fonctions dans le fichier", line := 1,
       severity := "major",
       description := "Le fichier contient " ++ toString functionCount ++
         " fonctions (max: 3, hors main)" }]
  else []

/-- The stateful loop of `VariableDeclarationLocationRule.Check` (C-V1,
level 1).  A signature line `continue`s, so its braces are not counted;
a blank or comment line `continue`s before the end-of-function test. -/
def varDeclLocAux (i : Nat) (inFunction : Bool) (funcName : Line) (braceCount : Int)
    (hasNonDeclStatement : Bool) : List Line → List Violation
  | [] => []
  | line :: rest =>
    match matchFuncSigFull line with
    | some name => varDeclLocAux (i + 1) true name 0 false rest
    | none =>
      if inFunction then
        let bc := braceCount + (countChar '{' line : Int) - (countChar '}' line : Int)
        let t := trimLine line
        if t.isEmpty || (str "/*").isPrefixOf t || (str "//").isPrefixOf t then
          varDeclLocAux (i + 1) true funcName bc hasNonDeclStatement rest
        else
          let emitted :=
            if matchVarDecl line && hasNonDeclStatement then
              [{ rule := "C-V1", message := "Déclaration de variable après du code exécutable",
                 line := i + 1, severity := "major",
                 description := "Dans la fonction '" ++ String.mk funcName ++
                   "', les déclarations doivent être en début" }]
            else []
          let hnd :=
            if matchVarDecl line then hasNonDeclStatement
            else if t ≠ str "\x7b" && t ≠ str "\x7d" then true
            else hasNonDeclStatement
          let inF := !(bc = 0 && line.contains '}')
          emitted ++ varDeclLocAux (i + 1) inF funcName bc hnd rest
      else varDeclLocAux (i + 1) false funcName braceCount hasNonDeclStatement rest

/-- `VariableDeclarationLocationRule.Check` (C-V1, level 1). -/
def VariableDeclarationLocationRule.check (ctx : FileContext) : List Violation :=
  varDeclLocAux 0 false [] 0 false ctx.lines

/-- `CommentFormatRule.Check` (C-C1, level 2). -/
def CommentFormatRule.check (ctx : FileContext) : List Violation :=
  ctx.lines.enum.flatMap fun p =>
    if containsSub p.2 (str "//") then
      [{ rule := "C-C1", message := "Utilisation de // interdit", line := p.1 + 1,
         severity := "major", description := "Utiliser /* */ pour les commentaires" }]
    else []

/-- `FunctionCommentRule.Check` (C-C2, level 2). -/
def FunctionCommentRule.check (ctx : FileContext) : List Violation :=
  ctx.lines.enum.flatMap fun p =>
    match matchFuncSigFull p.2 with
    | some funcName =>
      if funcName = str "main" then [] else
      let hasComment :=
        match p.1 with
        | 0 => false
        | j + 1 =>
          let prevLine := trimLine (ctx.lines.getD j [])
          (str "/**").isPrefixOf prevLine || (str "/*").isPrefixOf prevLine
      if hasComment then [] else
        [{ rule := "C-C2", message := "Commentaire de fonction manquant", line := p.1 + 1,
           severity := "major",
           description := "La fonction '" ++ String.mk funcName ++
             "' doit avoir un commentaire" }]
    | none => []

/-- The stateful loop of `GlobalVariableRule.Check` (C-G1, level 2). -/
def globalVarAux (i : Nat) (inFunction : Bool) (braceLevel : Int) :
    List Line → List Violation
  | [] => []
  | line :: rest =>
    let bl := braceLevel + (countChar '{' line : Int) - (countChar '}' line : Int)
    let inF1 :=
      if line.contains '(' && line.contains ')' &&
         (line.contains '{' ||
           (match rest with | next :: _ => next.contains '{' | [] => false)) then
        true
      else inFunction
    let inF2 := if bl = 0 then false else inF1
    (if !inF2 && bl = 0 && matchGlobalVar line && !containsSub line (str "const") then
      [{ rule := "C-G1", message := "Déclaration globale non const", line := i + 1,
         severity := "major", description := "Les variables globales doivent être const" }]
     else []) ++ globalVarAux (i + 1) inF2 bl rest

/-- `GlobalVariableRule.Check` (C-G1, level 2). -/
def GlobalVariableRule.check (ctx : FileContext) : List Violation :=
  globalVarAux 0 false 0 ctx.lines

/-- `FunctionParametersRule.Check` (C-F4, level 2). -/
def FunctionParametersRule.check (ctx : FileContext) : List Violation :=
  ctx.lines.enum.flatMap fun p =>
    match matchFuncParen p.2 with
    | some (funcName, rawParams, _) =>
      let params := trimLine rawParams
      if params.isEmpty || params = str "void" then [] else
      let paramCount := countChar ',' params + 1
      if paramCount > 4 then
        [{ rule := "C-F4", message := "Trop de paramètres", line := p.1 + 1,
           severity := "major",
           description := "La fonction '" ++ String.mk funcName ++ "' a " ++
             toString paramCount ++ " paramètres (max: 4)" }]
      else []
    | none => []

/-- `LoopDeclarationRule.Check` (C-L5, level 2). -/
def LoopDeclarationRule.check (ctx : FileContext) : List Violation :=
  ctx.lines.enum.flatMap fun p =>
    if matchForDecl p.2 then
      [{ rule := "C-L5", message := "Déclaration dans une boucle for", line := p.1 + 1,
         severity := "major",
         description := "Les variables doivent être déclarées avant la boucle" }]
    else []

/-- One registered rule of the package rule set: its stable code, its
verification level and its check operation (`rules.Rule` interface). -/
structure Rule where
  name : String
  level : Nat
  check : FileContext → List Violation

/-- The rule set built by `analyzer.New`, in registration order. -/
def rules : List Rule :=
  [⟨"C-L1", 1, LineLengthRule.check⟩,
   ⟨"C-L2", 1, EmptyLinesRule.check⟩,
   ⟨"C-L3", 1, IndentationRule.check⟩,
   ⟨"C-L4", 1, VariableDeclarationRule.check⟩,
   ⟨"C-V1", 1, VariableDeclarationLocationRule.check⟩,
   ⟨"C-O1", 1, FilenameRule.check⟩,
   ⟨"C-F1", 1, FunctionNamingRule.check⟩,
   ⟨"C-F2", 1, MacroNamingRule.check⟩,
   ⟨"C-F3", 1, FunctionLengthRule.check⟩,
   ⟨"C-O2", 1, FileMaxFunctionsRule.check⟩,
   ⟨"C-C1", 2, CommentFormatRule.check⟩,
   ⟨"C-C2", 2, FunctionCommentRule.check⟩,
   ⟨"C-G1", 2, GlobalVariableRule.check⟩,
   ⟨"C-F4", 2, FunctionParametersRule.check⟩,
   ⟨"C-L5", 2, LoopDeclarationRule.check⟩]

/-- `RuleSet.CheckAll`: run every registered rule whose level is at most
`level`, appending the violations in registration order. -/
def checkAll (rs : List Rule) (ctx : FileContext) (level : Nat) : List Violation :=
  rs.foldl (fun acc r => if r.level ≤ level then acc ++ r.check ctx else acc) []

/-- `Analyzer.calculateScore`: the ratio-based score of the package
analyzer. -/
def calculateScore (lineCount violationCount : Nat) : ℚ :=
  if lineCount = 0 then 100 else
  let violationRatio : ℚ := (violationCount : ℚ) / (lineCount : ℚ)
  let score := 100 - violationRatio * 100
  let score2 := if score < 0 then 0 else score
  if score2 > 100 then 100 else score2

/-- `Analyzer.AnalyzeFile` after the file has been read: build the context
from the scanner lines, run every rule at the level, and score. -/
def analyzeLines (filename : Line) (lines : List Line) (level : Nat) : FileResult :=
  let ctx : FileContext := ⟨filename, lines⟩
  let violations := checkAll rules ctx level
  ⟨filename, violations, calculateScore lines.length violations.length, lines.length⟩

/-- `Analyzer.AnalyzeFile` including `ReadFile`: `read` models the file
system (`none` is a read error, `some content` the file's bytes). -/
def AnalyzeFile (read : Line → Option Line) (filename : Line) (level : Nat) :
    Option FileResult :=
  (read filename).map fun content => analyzeLines filename (scanLines content) level

/-- `analyzer.AnalyzeResults`: the global report of the package analyzer. -/
structure AnalyzeResults where
  files : List FileResult
  totalScore : ℚ
  totalFiles : Nat
  totalLines : Nat
  totalViolations : Nat
  cleanFiles : Nat
deriving DecidableEq, Repr

/-- `analyzer.CalculateGlobalResults`: an early return of the zero value on
an empty list, otherwise one accumulation pass and the average score. -/
def CalculateGlobalResults (results : List FileResult) : AnalyzeResults :=
  if results.isEmpty then ⟨[], 0, 0, 0, 0, 0⟩ else
  let acc := results.foldl
    (fun (a : ℚ × Nat × Nat × Nat) r =>
      (a.1 + r.score, a.2.1 + r.lineCount, a.2.2.1 + r.violations.length,
       a.2.2.2 + (if r.violations.length = 0 then 1 else 0)))
    (0, 0, 0, 0)
  ⟨results, acc.1 / (results.length : ℚ), results.length, acc.2.1, acc.2.2.1, acc.2.2.2⟩

/-- `cmd/epicstyle` `analyzeTarget`, after path resolution: analyze each
candidate file in order, aborting with the error of the first file whose
read fails. -/
def analyzeTarget (read : Line → Option Line) (level : Nat) :
    List Line → Except Unit (List FileResult)
  | [] => Except.ok []
  | f :: rest =>
    match AnalyzeFile read f level with
    | none => Except.error ()
    | some r => (analyzeTarget read level rest).map fun rs => r :: rs

end Pkg

namespace Mono

/-- The monolith's `FunctionInfo`.  A freshly detected function has the Go
zero value `0` in `EndLine`; it is set only when the closing brace is
found. -/
structure FunctionInfo where
  name : Line
  startLine : Nat
  endLine : Nat := 0
  paramCount : Nat := 0
deriving DecidableEq, Repr

/-- The signature-detection step of `extractFunctions` at 0-based index
`i`, seeing the raw line and the next line when there is one.  `none`
leaves the open-function slot unchanged; `some` overwrites it. -/
def detectSignature (i : Nat) (line : Line) (next? : Option Line) : Option FunctionInfo :=
  let trimmed := trimLine line
  if containsSub trimmed (str "(") && containsSub trimmed (str ")") &&
     (containsSub trimmed (str "\x7b") ||
       (match next? with
        | some nx => containsSub (trimLine nx) (str "\x7b")
        | none => false)) then
    if !(str "//").isPrefixOf trimmed && !(str "/*").isPrefixOf trimmed &&
       !containsSub trimmed (str "if") && !containsSub trimmed (str "while") &&
       !containsSub trimmed (str "for") && !containsSub trimmed (str "switch") then
      let parenPos := trimmed.findIdx (fun c => c = '(')
      if parenPos > 0 then
        let funcPart := trimmed.take parenPos
        match (fieldsOf funcPart).getLast? with
        | some w =>
          let funcName := if w.contains '*' then w.dropWhile (fun c => c = '*') else w
          let paramPart := trimmed.drop (parenPos + 1)
          if paramPart.contains ')' then
            let closeParenPos := paramPart.findIdx (fun c => c = ')')
            if closeParenPos > 0 then
              let params := paramPart.take closeParenPos
              let paramCount :=
                if !blankLine params && trimLine params ≠ str "void" then
                  countChar ',' params + 1
                else 0
              some ⟨funcName, i + 1, 0, paramCount⟩
            else none
          else none
        | none => none
      else none
    else none
  else none

/-- The loop of `extractFunctions`: the open slot is overwritten by a new
detection, braces are counted on the raw line, and the open function is
appended when the count returns to `0` on a line containing a closing
brace. -/
def extractAux (i : Nat) (braceCount : Int) (currentFunc : Option FunctionInfo) :
    List Line → List FunctionInfo
  | [] => []
  | line :: rest =>
    let cur :=
      match detectSignature i line rest.head? with
      | some f => some f
      | none => currentFunc
    let bc := braceCount + (countChar '{' line : Int) - (countChar '}' line : Int)
    match cur with
    | some f =>
      if bc = 0 && line.contains '}' then
        { f with endLine := i + 1 } :: extractAux (i + 1) bc none rest
      else extractAux (i + 1) bc (some f) rest
    | none => extractAux (i + 1) bc none rest

/-- The monolith's `extractFunctions`. -/
def extractFunctions (lines : List Line) : List FunctionInfo := extractAux 0 0 none lines

/-- Instrumentation: the open-function slot left when `extractAux` has
consumed every line. -/
def extractFinal (i : Nat) (braceCount : Int) (currentFunc : Option FunctionInfo) :
    List Line → Option FunctionInfo
  | [] => currentFunc
  | line :: rest =>
    let cur :=
      match detectSignature i line rest.head? with
      | some f => some f
      | none => currentFunc
    let bc := braceCount + (countChar '{' line : Int) - (countChar '}' line : Int)
    match cur with
    | some f =>
      if bc = 0 && line.contains '}' then extractFinal (i + 1) bc none rest
      else extractFinal (i + 1) bc (some f) rest
    | none => extractFinal (i + 1) bc none rest

/-- Instrumentation: how many lines the detector fires on ("detected
signature lines"); detection is independent of the brace and slot state. -/
def sigEvents (i : Nat) : List Line → Nat
  | [] => 0
  | line :: rest =>
    (if (detectSignature i line rest.head?).isSome then 1 else 0) + sigEvents (i + 1) rest

/-- Instrumentation: how many detections fire while a function is still
open, overwriting (and so losing) the open function. -/
def overlapEvents (i : Nat) (braceCount : Int) (currentFunc : Option FunctionInfo) :
    List Line → Nat
  | [] => 0
  | line :: rest =>
    let d := detectSignature i line rest.head?
    let o := if d.isSome && currentFunc.isSome then 1 else 0
    let cur := match d with | some f => some f | none => currentFunc
    let bc := braceCount + (countChar '{' line : Int) - (countChar '}' line : Int)
    match cur with
    | some f =>
      if bc = 0 && line.contains '}' then o + overlapEvents (i + 1) bc none rest
      else o + overlapEvents (i + 1) bc (some f) rest
    | none => o + overlapEvents (i + 1) bc none rest

/-- The monolith's `FileAnalysis`.  Go passes the same path once more as a
separate `filename` argument to each check; it always equals
`analysis.Filename` and is folded into the struct here. -/
structure FileAnalysis where
  filename : Line
  lines : List Line
  functions : List FunctionInfo

/-- Monolith `isSnakeCase`: no ASCII uppercase letter and no underscore at
either end (any other character is allowed). -/
def isSnakeCase (s : Line) : Bool :=
  if s.isEmpty then false else
  s.enum.all fun p =>
    !('A' ≤ p.2 && p.2 ≤ 'Z') && !(p.2 = '_' && (p.1 = 0 || p.1 = s.length - 1))

/-- Monolith `isScreamingSnakeCase`: no ASCII lowercase letter and no
underscore at either end. -/
def isScreamingSnakeCase (s : Line) : Bool :=
  if s.isEmpty then false else
  s.enum.all fun p =>
    !('a' ≤ p.2 && p.2 ≤ 'z') && !(p.2 = '_' && (p.1 = 0 || p.1 = s.length - 1))

/-- Monolith `checkLineLength` (C-L1). -/
def checkLineLength (analysis : FileAnalysis) : List Violation :=
  analysis.lines.enum.flatMap fun p =>
    if p.2.length > 80 then
      [{ rule := "C-L1", message := "Line too long", line := p.1 + 1,
         severity := "major",
         description := "Line contains " ++ toString p.2.length ++ " characters (max 80)" }]
    else []

/-- The consecutive-blank-lines loop of the monolith's `checkEmptyLines`:
`i` from 1, both `lines[i]` and `lines[i-1]` blank report line `i + 1`. -/
def consecEmptyMono (i : Nat) : List Line → List Violation
  | a :: b :: rest =>
    (if blankLine a && blankLine b then
      [{ rule := "C-L2", message := "Consecutive empty lines", line := i + 2,
         severity := "minor",
         description := "Multiple consecutive empty lines are forbidden" }]
     else []) ++ consecEmptyMono (i + 1) (b :: rest)
  | _ => []

/-- Monolith `checkEmptyLines` (C-L2): all its violations are minor, and
the last-line test requires at least two lines. -/
def checkEmptyLines (analysis : FileAnalysis) : List Violation :=
  let lines := analysis.lines
  (if lines.length > 0 && blankLine (lines.headD []) then
    [{ rule := "C-L2", message := "Empty line at beginning of file", line := 1,
       severity := "minor", description := "File should not start with empty line" }]
   else []) ++
  (if lines.length > 1 && blankLine (lines.getLastD []) then
    [{ rule := "C-L2", message := "Empty line at end of file", line := lines.length,
       severity := "minor", description := "File should not end with empty line" }]
   else []) ++
  consecEmptyMono 0 lines

/-- Monolith `checkIndentation` (C-L3): the first character is a space. -/
def checkIndentation (analysis : FileAnalysis) : List Violation :=
  analysis.lines.enum.flatMap fun p =>
    if p.2.head? = some ' ' then
      [{ rule := "C-L3", message := "Space indentation", line := p.1 + 1,
         severity := "major", description := "Use TAB for indentation, not spaces" }]
    else []

/-- Monolith `checkVariableDeclaration` (C-L4). -/
def checkVariableDeclaration (analysis : FileAnalysis) : List Violation :=
  analysis.lines.enum.flatMap fun p =>
    let trimmed := trimLine p.2
    if (containsSub trimmed (str "int ") || containsSub trimmed (str "char ") ||
        containsSub trimmed (str "float ") || containsSub trimmed (str "double ")) &&
       countChar ',' trimmed > 0 && !containsSub trimmed (str "for") then
      [{ rule := "C-L4", message := "Multiple variable declaration", line := p.1 + 1,
         severity := "major", description := "Declare only one variable per line" }]
    else []

/-- Monolith `checkVariablePosition` (C-V1): the source returns no
violations. -/
def checkVariablePosition (_analysis : FileAnalysis) : List Violation := []

/-- Monolith `checkFilename` (C-O1), a file-level violation at line 0. -/
def checkFilename (analysis : FileAnalysis) : List Violation :=
  let name := stripExt (baseName analysis.filename)
  if !isSnakeCase name then
    [{ rule := "C-O1", message := "Invalid filename format", line := 0,
       severity := "major", description := "Filename must be in snake_case" }]
  else []

/-- Monolith `checkFunctionCount` (C-O2). -/
def checkFunctionCount (analysis : FileAnalysis) : List Violation :=
  let funcCount := analysis.lines.countP fun line =>
    let trimmed := trimLine line
    containsSub trimmed (str "(") && containsSub trimmed (str ")") &&
    containsSub trimmed (str "\x7b") && !(str "//").isPrefixOf trimmed &&
    !(str "/*").isPrefixOf trimmed && !containsSub trimmed (str "if") &&
    !containsSub trimmed (str "while") && !containsSub trimmed (str "for") &&
    !containsSub trimmed (str "main")
  if funcCount > 3 then
    [{ rule := "C-O2", message := "Too many functions", line := 0,
       severity := "major",
       description := "File contains " ++ toString funcCount ++
         " functions (max 3 excluding main)" }]
  else []

/-- Monolith `checkFunctionNames` (C-F1). -/
def checkFunctionNames (analysis : FileAnalysis) : List Violation :=
  analysis.functions.flatMap fun fn =>
    if !isSnakeCase fn.name && fn.name ≠ str "main" then
      [{ rule := "C-F1", message := "Invalid function name", line := fn.startLine,
         severity := "major",
         description := "Function '" ++ String.mk fn.name ++ "' must be in snake_case" }]
    else []

/-- Monolith `checkMacroNames` (C-F2). -/
def checkMacroNames (analysis : FileAnalysis) : List Violation :=
  analysis.lines.enum.flatMap fun p =>
    let trimmed := trimLine p.2
    if (str "#define ").isPrefixOf trimmed then
      match (fieldsOf trimmed).get? 1 with
      | some macroName =>
        if !isScreamingSnakeCase macroName then
          [{ rule := "C-F2", message := "Invalid macro name", line := p.1 + 1,
             severity := "major",
             description := "Macro '" ++ String.mk macroName ++
               "' must be in SCREAMING_SNAKE_CASE" }]
        else []
      | none => []
    else []

/-- Monolith `checkFunctionLength` (C-F3). -/
def checkFunctionLength (analysis : FileAnalysis) : List Violation :=
  analysis.functions.flatMap fun fn =>
    let length : Int := (fn.endLine : Int) - (fn.startLine : Int) + 1
    if length > 25 then
      [{ rule := "C-F3", message := "Function too long", line := fn.startLine,
         severity := "major",
         description := "Function '" ++ String.mk fn.name ++ "' has " ++
           toString length ++ " lines (max 25)" }]
    else []

/-- Monolith `checkCommentFormat` (C-C1, level 2). -/
def checkCommentFormat (analysis : FileAnalysis) : List Violation :=
  analysis.lines.enum.flatMap fun p =>
    if containsSub p.2 (str "//") then
      [{ rule := "C-C1", message := "Invalid comment format", line := p.1 + 1,
         severity := "minor", description := "Use /* */ comments only, not // comments" }]
    else []

/-- Monolith `checkFunctionComment` (C-C2, level 2): the source returns no
violations. -/
def checkFunctionComment (_analysis : FileAnalysis) : List Violation := []

/-- Monolith `checkGlobalVariables` (C-G1, level 2): the source returns no
violations. -/
def checkGlobalVariables (_analysis : FileAnalysis) : List Violation := []

/-- Monolith `checkFunctionParameters` (C-F4, level 2). -/
def checkFunctionParameters (analysis : FileAnalysis) : List Violation :=
  analysis.functions.flatMap fun fn =>
    if fn.paramCount > 4 then
      [{ rule := "C-F4", message := "Too many parameters", line := fn.startLine,
         severity := "major",
         description := "Function '" ++ String.mk fn.name ++ "' has " ++
           toString fn.paramCount ++ " parameters (max 4)" }]
    else []

/-- Monolith `checkForLoopDeclaration` (C-L5, level 2). -/
def checkForLoopDeclaration (analysis : FileAnalysis) : List Violation :=
  analysis.lines.enum.flatMap fun p =>
    let trimmed := trimLine p.2
    if containsSub trimmed (str "for") && containsSub trimmed (str "int ") then
      [{ rule := "C-L5", message := "Variable declaration in for loop", line := p.1 + 1,
         severity := "major",
         description := "Do not declare variables in for loop initialization" }]
    else []

/-- The codes of the monolith's rule map (`Analyzer.rules`). -/
inductive RuleTag
  | CL1 | CL2 | CL3 | CL4 | CV1 | CO1 | CO2 | CF1 | CF2 | CF3
  | CC1 | CC2 | CG1 | CF4 | CL5
deriving DecidableEq, Repr

/-- The `Level` field of each registered monolith rule. -/
def levelOf : RuleTag → Nat
  | .CL1 | .CL2 | .CL3 | .CL4 | .CV1 | .CO1 | .CO2 | .CF1 | .CF2 | .CF3 => 1
  | .CC1 | .CC2 | .CG1 | .CF4 | .CL5 => 2

/-- The `Check` field of each registered monolith rule. -/
def checkOf : RuleTag → FileAnalysis → List Violation
  | .CL1 => checkLineLength
  | .CL2 => checkEmptyLines
  | .CL3 => checkIndentation
  | .CL4 => checkVariableDeclaration
  | .CV1 => checkVariablePosition
  | .CO1 => checkFilename
  | .CO2 => checkFunctionCount
  | .CF1 => checkFunctionNames
  | .CF2 => checkMacroNames
  | .CF3 => checkFunctionLength
  | .CC1 => checkCommentFormat
  | .CC2 => checkFunctionComment
  | .CG1 => checkGlobalVariables
  | .CF4 => checkFunctionParameters
  | .CL5 => checkForLoopDeclaration

/-- The keys present in the rule map after `initRules` at the given level,
listed in the source's insertion order.  The map's iteration order is
unspecified in Go, so an analysis run iterates SOME permutation of this
list. -/
def registeredRules (level : Nat) : List RuleTag :=
  [.CL1, .CL2, .CL3, .CL4, .CV1, .CO1, .CO2, .CF1, .CF2, .CF3] ++
    (if level ≥ 2 then [.CC1, .CC2, .CG1, .CF4, .CL5] else [])

/-- The monolith's per-file score: start at `100.0`, subtract `5.0` per
violation (`2.0` when minor), clamp below at `0`.  There is no upper
clamp. -/
def score (violations : List Violation) : ℚ :=
  let s := violations.foldl
    (fun s v => s - (if v.severity = "minor" then (2 : ℚ) else 5)) 100
  if s < 0 then 0 else s

/-- The monolith's `analyzeFile` after the file has been read, iterating
its rule map in the order `order` (any permutation of `registeredRules
level` is a possible Go execution). -/
def analyzeFile (order : List RuleTag) (level : Nat) (filename : Line)
    (content : Line) : FileResult :=
  let lines := splitNl content
  let analysis : FileAnalysis := ⟨filename, lines, extractFunctions lines⟩
  let violations := order.flatMap fun t =>
    if levelOf t ≤ level then checkOf t analysis else []
  ⟨baseName filename, violations, score violations, lines.length⟩

/-- The monolith's `Report`. -/
structure Report where
  files : List FileResult
  totalScore : ℚ
  totalFiles : Nat
  totalLines : Nat
  totalViolations : Nat
  cleanFiles : Nat
deriving DecidableEq, Repr

/-- The monolith's `AnalyzePath` after file discovery: a file whose read
fails (`read file = none`, the only error `analyzeFile` can return) is
skipped with `continue`; afterwards the total score averages the collected
per-file scores when at least one file survived. -/
def AnalyzePath (read : Line → Option Line) (order : List RuleTag) (level : Nat)
    (files : List Line) : Report :=
  let step := fun (rep : Report) (file : Line) =>
    match read file with
    | none => rep
    | some content =>
      let result := analyzeFile order level file content
      { rep with
        files := rep.files ++ [result],
        totalFiles := rep.totalFiles + 1,
        totalLines := rep.totalLines + result.lineCount,
        totalViolations := rep.totalViolations + result.violations.length,
        cleanFiles := rep.cleanFiles + (if result.violations.length = 0 then 1 else 0) }
  let rep := files.foldl step ⟨[], 0, 0, 0, 0, 0⟩
  if rep.totalFiles > 0 then
    { rep with
      totalScore := (rep.files.foldl (fun acc r => acc + r.score) 0) / (rep.totalFiles : ℚ) }
  else rep

end Mono

/-! Support definitions for the theorems: spec-side predicates and the
concrete inputs used by counterexamples and witnesses. -/

/-- The per-violation penalty of the monolith's score loop. -/
def penalty (v : Violation) : ℚ := if v.severity = "minor" then 2 else 5

/-- Some two consecutive lines are both blank. -/
def hasConsecBlank : List Line → Bool
  | a :: b :: rest => (blankLine a && blankLine b) || hasConsecBlank (b :: rest)
  | _ => false

/-- The trigger condition of the empty-lines rule as the specification
states it: first line blank, or last line blank, or two consecutive blank
lines. -/
def emptyLinesTrigger (lines : List Line) : Prop :=
  (∃ a rest, lines = a :: rest ∧ blankLine a) ∨
  (∃ a, lines.getLast? = some a ∧ blankLine a) ∨
  (∃ i, i + 1 < lines.length ∧ blankLine (lines.getD i []) ∧ blankLine (lines.getD (i + 1) []))

/-- The aggregate the specification ascribes to the monolith's
`AnalyzePath` over the per-file results that survived reading: counts,
sums, clean count and averaged score (`0` when no file survived). -/
def reportOf (results : List FileResult) : Mono.Report :=
  ⟨results,
   if results.length = 0 then 0
   else (results.map FileResult.score).sum / (results.length : ℚ),
   results.length,
   (results.map FileResult.lineCount).sum,
   (results.map fun r => r.violations.length).sum,
   results.countP fun r => r.violations.isEmpty⟩

/-- Scenario D's file content: `int main(void)\n{\n\treturn (0);\n}\n`. -/
def cleanContent : Line := str "int main(void)\n\x7b\n\treturn (0);\n\x7d\n"

/-- Scenario D's lines as the package reader scans them. -/
def cleanLines : List Line := [str "int main(void)", str "\x7b", str "\treturn (0);", str "\x7d"]

/-- A file system with the scenario D file under `main.c`. -/
def readCleanFile : Line → Option Line :=
  fun f => if f = str "main.c" then some cleanContent else none

/-- The one violation the monolith reports on scenario D: the trailing
newline leaves a fifth, empty line behind `strings.Split`. -/
def endOfFileViol : Violation :=
  { rule := "C-L2", message := "Empty line at end of file", line := 5,
    severity := "minor", description := "File should not end with empty line" }

/-- A single line of 81 `x` characters. -/
def longLine81 : Line := List.replicate 81 'x'

/-- A file system with the 81-character one-line file under `a.c`. -/
def readLongLine : Line → Option Line :=
  fun f => if f = str "a.c" then some longLine81 else none

/-- A file system with an empty file under the non-snake-case name
`BadName.c`. -/
def readEmptyBadName : Line → Option Line :=
  fun f => if f = str "BadName.c" then some [] else none

/-- The filename-casing violation the package rules emit on
`BadName.c`. -/
def badNameViol : Violation :=
  { rule := "C-O1", message := "Nom de fichier non conforme au snake_case", line := 1,
    severity := "major",
    description := "Le nom de fichier doit être en snake_case (ex: mon_fichier.c)" }

/-- A two-line file triggering both the indentation rule (leading space)
and the macro-naming rule. -/
def twoRuleContent : Line := str " x\n#define bad 1"

/-- A permutation of the monolith's level-1 rule keys that differs from the
registration order (Go map iteration may produce any such order). -/
def swappedOrder : List Mono.RuleTag :=
  [.CF2, .CL2, .CL3, .CL4, .CV1, .CO1, .CO2, .CF1, .CL1, .CF3]

/-- The indentation violation of `twoRuleContent`. -/
def spaceViol : Violation :=
  { rule := "C-L3", message := "Space indentation", line := 1,
    severity := "major", description := "Use TAB for indentation, not spaces" }

/-- The macro-naming violation of `twoRuleContent`. -/
def macroViol : Violation :=
  { rule := "C-F2", message := "Invalid macro name", line := 2,
    severity := "major", description := "Macro 'bad' must be in SCREAMING_SNAKE_CASE" }

/-- Balanced-brace lines with two detected signature lines where the
second detection overwrites the still-open first function. -/
def overlapLines : List Line := [str "f(x)", str "g(y) \x7b", str "\x7d"]

/-- A completely extracted one-function file. -/
def oneFuncLines : List Line := [str "int f(void)", str "\x7b", str "\x7d"]

/-- The same file truncated before its closing brace. -/
def truncatedLines : List Line := [str "int f(void)", str "\x7b"]

/-- A file system where `good.c` reads fine and `bad.c` fails to read. -/
def readOneBad : Line → Option Line :=
  fun f => if f = str "good.c" then some cleanContent else none

/-- An arbitrary major violation used by witnesses. -/
def aMajorViol : Violation :=
  { rule := "C-L1", message := "Line too long", line := 1, severity := "major" }

/-! Helper lemmas shared by the claim theorems. -/

theorem score_foldl (vs : List Violation) (init : ℚ) :
    vs.foldl (fun s v => s - (if v.severity = "minor" then (2 : ℚ) else 5)) init
      = init - (vs.map penalty).sum := by
  induction vs generalizing init with
  | nil => simp
  | cons v rest ih => simp [List.foldl_cons, ih, penalty, sub_sub]

theorem score_eq_max (vs : List Violation) :
    Mono.score vs = max 0 (100 - (vs.map penalty).sum) := by
  unfold Mono.score
  rw [score_foldl]
  rcases lt_or_le ((100 : ℚ) - (vs.map penalty).sum) 0 with h | h
  · rw [if_pos h, max_eq_left h.le]
  · rw [if_neg (not_lt.mpr h), max_eq_right h]

theorem penalty_nonneg (v : Violation) : 0 ≤ penalty v := by
  unfold penalty; split <;> norm_num

theorem penalty_sum_nonneg (vs : List Violation) : 0 ≤ (vs.map penalty).sum := by
  refine List.sum_nonneg ?_
  intro x hx
  rcases List.mem_map.mp hx with ⟨v, _, rfl⟩
  exact penalty_nonneg v

theorem penalty_sum_eq (vs : List Violation)
    (hv : ∀ w ∈ vs, w.severity = "major" ∨ w.severity = "minor") :
    (vs.map penalty).sum
      = 5 * ((vs.countP fun w => w.severity == "major" : Nat) : ℚ)
        + 2 * ((vs.countP fun w => w.severity == "minor" : Nat) : ℚ) := by
  induction vs with
  | nil => simp
  | cons v rest ih =>
    have hrest : ∀ w ∈ rest, w.severity = "major" ∨ w.severity = "minor" :=
      fun w hw => hv w (List.mem_cons_of_mem v hw)
    have hsum := ih hrest
    rcases hv v (List.mem_cons_self v rest) with h | h
    · have e1 : penalty v = 5 := by unfold penalty; rw [h]; decide
      have e2 : (v.severity == "major") = true := by rw [h]; decide
      have e3 : (v.severity == "minor") = false := by rw [h]; decide
      simp only [List.map_cons, List.sum_cons, List.countP_cons, e1, e2, e3, hsum,
        if_true, if_false]
      push_cast
      ring
    · have e1 : penalty v = 2 := by unfold penalty; rw [h]; decide
      have e2 : (v.severity == "major") = false := by rw [h]; decide
      have e3 : (v.severity == "minor") = true := by rw [h]; decide
      simp only [List.map_cons, List.sum_cons, List.countP_cons, e1, e2, e3, hsum,
        if_true, if_false]
      push_cast
      ring

theorem max_zero_sub_five (x : ℚ) : max 0 (x - 5) = max 0 (max 0 x - 5) := by
  rcases le_total 0 x with h | h
  · rw [max_eq_right h]
  · rw [max_eq_left h, max_eq_left (by linarith : x - 5 ≤ 0),
      max_eq_left (by norm_num : (0 : ℚ) - 5 ≤ 0)]

theorem calculateScore_bounds (lineCount violationCount : Nat) :
    0 ≤ Pkg.calculateScore lineCount violationCount ∧
      Pkg.calculateScore lineCount violationCount ≤ 100 := by
  simp only [Pkg.calculateScore]
  split_ifs <;> constructor <;> linarith

/-! The claim theorems. -/

/-- Claim C1 (corrected), counterexample: the package analyzer does not use
the fixed-penalty formula.  Analyzing the one-line file of 81 characters
(one major violation, no minor one) yields score 0.0, while the claimed
formula `100 − 5·major − 2·minor` clamped below at 0 gives 95.0. -/
theorem C1_counterexample :
    (Pkg.AnalyzeFile readLongLine (str "a.c") 1).map FileResult.score = some 0 ∧
    (Pkg.AnalyzeFile readLongLine (str "a.c") 1).map
        (fun r => ((r.violations.countP fun w => w.severity == "major"),
                   (r.violations.countP fun w => w.severity == "minor")))
      = some (1, 0) ∧
    (0 : ℚ) ≠ max 0 (100 - 5 * 1 - 2 * 0) := by
  refine ⟨?_, by decide, by norm_num⟩
  have hshape : Pkg.AnalyzeFile readLongLine (str "a.c") 1
      = some (Pkg.analyzeLines (str "a.c") (scanLines longLine81) 1) := rfl
  rw [hshape]
  show some (Pkg.calculateScore (scanLines longLine81).length
    (Pkg.checkAll Pkg.rules ⟨str "a.c", scanLines longLine81⟩ 1).length) = some 0
  have h1 : (scanLines longLine81).length = 1 := by decide
  have h2 : (Pkg.checkAll Pkg.rules ⟨str "a.c", scanLines longLine81⟩ 1).length = 1 := by
    decide
  rw [h1, h2]
  norm_num [Pkg.calculateScore]

/-- Claim C1 (corrected), amended: in the monolithic analyzer the per-file
score equals 100 minus 5.0 per major and 2.0 per minor violation, clamped
below at 0.0, and appending one more major violation moves the score to
`max 0 (score − 5)` — a strict decrease by exactly 5.0 until the clamp at 0
interferes.  The package analyzer instead scores by the violations-per-line
ratio (see the counterexample). -/
theorem C1_amended_fixed_penalty (vs : List Violation) (v : Violation)
    (hv : ∀ w ∈ vs, w.severity = "major" ∨ w.severity = "minor")
    (hmaj : v.severity = "major") :
    Mono.score vs
      = max 0 (100 - 5 * ((vs.countP fun w => w.severity == "major" : Nat) : ℚ)
                   - 2 * ((vs.countP fun w => w.severity == "minor" : Nat) : ℚ)) ∧
    Mono.score (vs ++ [v]) = max 0 (Mono.score vs - 5) := by
  constructor
  · rw [score_eq_max, penalty_sum_eq vs hv]
    ring_nf
  · rw [score_eq_max, score_eq_max]
    have hpen : penalty v = 5 := by
      unfold penalty
      rw [hmaj]
      decide
    have hsum : ((vs ++ [v]).map penalty).sum = (vs.map penalty).sum + 5 := by
      simp [hpen]
    rw [hsum, show (100 : ℚ) - ((vs.map penalty).sum + 5)
      = (100 - (vs.map penalty).sum) - 5 by ring, max_zero_sub_five]

/-- Witness for C1's amended theorem at the concrete list holding one major
violation. -/
theorem C1_amended_fixed_penalty_witness :
    Mono.score [aMajorViol]
      = max 0 (100 - 5 * (([aMajorViol].countP fun w => w.severity == "major" : Nat) : ℚ)
                   - 2 * (([aMajorViol].countP fun w => w.severity == "minor" : Nat) : ℚ)) ∧
    Mono.score ([aMajorViol] ++ [aMajorViol]) = max 0 (Mono.score [aMajorViol] - 5) :=
  C1_amended_fixed_penalty [aMajorViol] aMajorViol
    (by intro w hw; rw [List.mem_singleton.mp hw]; left; rfl) rfl

/-- Claim C2 (confirmed): whichever analyzer computed it, and whatever the
rule iteration order, level and file content, the per-file score lies in
the closed interval [0, 100]. -/
theorem C2_score_bounds (order : List Mono.RuleTag) (level : Nat)
    (filename content pfilename : Line) (plines : List Line) (plevel : Nat) :
    (0 ≤ (Mono.analyzeFile order level filename content).score ∧
      (Mono.analyzeFile order level filename content).score ≤ 100) ∧
    (0 ≤ (Pkg.analyzeLines pfilename plines plevel).score ∧
      (Pkg.analyzeLines pfilename plines plevel).score ≤ 100) := by
  constructor
  · show 0 ≤ Mono.score (order.flatMap fun t =>
        if Mono.levelOf t ≤ level then Mono.checkOf t
          ⟨filename, splitNl content, Mono.extractFunctions (splitNl content)⟩ else []) ∧
      Mono.score (order.flatMap fun t =>
        if Mono.levelOf t ≤ level then Mono.checkOf t
          ⟨filename, splitNl content, Mono.extractFunctions (splitNl content)⟩ else []) ≤ 100
    rw [score_eq_max]
    refine ⟨le_max_left 0 _, max_le (by norm_num) ?_⟩
    have h := penalty_sum_nonneg (order.flatMap fun t =>
      if Mono.levelOf t ≤ level then Mono.checkOf t
        ⟨filename, splitNl content, Mono.extractFunctions (splitNl content)⟩ else [])
    linarith
  · exact calculateScore_bounds plines.length _

/-- Claim C10 (confirmed): the package analyzer's score computation returns
exactly 100.0 whenever the file has zero lines, regardless of the number of
violations; concretely, the empty file named `BadName.c` carries one
filename-casing violation and still receives score 100.0. -/
theorem C10_zero_lines_full_score :
    (∀ violationCount : Nat, Pkg.calculateScore 0 violationCount = 100) ∧
    Pkg.AnalyzeFile readEmptyBadName (str "BadName.c") 1
      = some ⟨str "BadName.c", [badNameViol], 100, 0⟩ := by
  constructor
  · intro violationCount
    simp [Pkg.calculateScore]
  · have hshape : Pkg.AnalyzeFile readEmptyBadName (str "BadName.c") 1
        = some (Pkg.analyzeLines (str "BadName.c") (scanLines []) 1) := rfl
    rw [hshape]
    have hl : scanLines ([] : Line) = [] := by decide
    rw [hl]
    have hv : Pkg.checkAll Pkg.rules ⟨str "BadName.c", []⟩ 1 = [badNameViol] := by decide
    simp only [Pkg.analyzeLines]
    rw [hv]
    simp [Pkg.calculateScore]

/-- Claim C6 (confirmed): evaluating the rule registry at level `N` returns
exactly the concatenation, in registration order, of the violations of
every registered rule whose level is at most `N`; rules above the level
contribute nothing, and level 2 runs every level-1 rule as well. -/
theorem C6_checkAll_concat (rs : List Pkg.Rule) (ctx : Pkg.FileContext) (level : Nat) :
    Pkg.checkAll rs ctx level
      = (rs.filter fun r => decide (r.level ≤ level)).flatMap fun r => r.check ctx := by
  have key : ∀ (l : List Pkg.Rule) (acc : List Violation),
      l.foldl (fun acc r => if r.level ≤ level then acc ++ r.check ctx else acc) acc
        = acc ++ (l.filter fun r => decide (r.level ≤ level)).flatMap fun r => r.check ctx := by
    intro l
    induction l with
    | nil => intro acc; simp
    | cons r rest ih =>
      intro acc
      by_cases h : r.level ≤ level
      · simp [List.foldl_cons, h, ih, List.filter_cons, List.append_assoc]
      · simp [List.foldl_cons, h, ih, List.filter_cons]
  simpa [Pkg.checkAll] using key rs []

theorem calcGlobal_fold (results : List FileResult) (a : ℚ) (b c d : Nat) :
    results.foldl (fun (acc : ℚ × Nat × Nat × Nat) r =>
        (acc.1 + r.score, acc.2.1 + r.lineCount, acc.2.2.1 + r.violations.length,
         acc.2.2.2 + (if r.violations.length = 0 then 1 else 0)))
        (a, b, c, d)
      = (a + (results.map FileResult.score).sum,
         b + (results.map FileResult.lineCount).sum,
         c + (results.map fun r => r.violations.length).sum,
         d + results.countP fun r => r.violations.isEmpty) := by
  induction results generalizing a b c d with
  | nil => simp
  | cons r rest ih =>
    have hclean : (if r.violations.length = 0 then 1 else 0)
        = (if r.violations.isEmpty then 1 else 0) := by
      cases r.violations <;> simp
    simp only [List.foldl_cons, ih, List.map_cons, List.sum_cons, List.countP_cons,
      hclean, Prod.mk.injEq]
    refine ⟨by ring, by omega, by omega, ?_⟩
    cases hre : r.violations.isEmpty
    · simp
    · simp
      omega

/-- Claim C5 (confirmed): the aggregator returns the list length as
`total_files`, the sums of line counts and of violation counts, the number
of results with an empty violation list as `clean_files` (a result is
counted exactly when it has zero violations), and the arithmetic mean of
the scores as `total_score`; the empty list yields `0.0` and no failure. -/
theorem C5_global_results (results : List FileResult) :
    Pkg.CalculateGlobalResults results
      = ⟨results,
         (results.map FileResult.score).sum / (results.length : ℚ),
         results.length,
         (results.map FileResult.lineCount).sum,
         (results.map fun r => r.violations.length).sum,
         results.countP fun r => r.violations.isEmpty⟩ ∧
    (Pkg.CalculateGlobalResults []).totalScore = 0 ∧
    (Pkg.CalculateGlobalResults results).cleanFiles
      = (results.filter fun r => r.violations.isEmpty).length := by
  have main : ∀ (l : List FileResult),
      Pkg.CalculateGlobalResults l
        = ⟨l, (l.map FileResult.score).sum / (l.length : ℚ), l.length,
           (l.map FileResult.lineCount).sum,
           (l.map fun r => r.violations.length).sum,
           l.countP fun r => r.violations.isEmpty⟩ := by
    intro l
    unfold Pkg.CalculateGlobalResults
    cases l with
    | nil => simp
    | cons r rest =>
      rw [if_neg (by simp)]
      rw [calcGlobal_fold (r :: rest) 0 0 0 0]
      simp
  refine ⟨main results, ?_, ?_⟩
  · rw [main []]
    simp
  · rw [main results]
    exact (List.countP_eq_length_filter _ _)

theorem checkAll_eq_nil (rs : List Pkg.Rule) (ctx : Pkg.FileContext) (level : Nat)
    (h : ∀ r ∈ rs, r.check ctx = []) : Pkg.checkAll rs ctx level = [] := by
  have key : ∀ (l : List Pkg.Rule) (acc : List Violation), (∀ r ∈ l, r.check ctx = []) →
      l.foldl (fun acc r => if r.level ≤ level then acc ++ r.check ctx else acc) acc
        = acc := by
    intro l
    induction l with
    | nil => intro acc _; simp
    | cons r rest ih =>
      intro acc hl
      have h1 : r.check ctx = [] := hl r (List.mem_cons_self r rest)
      have h2 : ∀ s ∈ rest, s.check ctx = [] := fun s hs => hl s (List.mem_cons_of_mem r hs)
      by_cases hlev : r.level ≤ level <;> simp [hlev, h1, ih _ h2]
  exact key rs [] h

/-- Claim C3 (corrected), counterexample: the monolithic analyzer splits
the content of scenario D on newlines, so its trailing newline leaves a
fifth, empty line behind; at level 1 (in any rule order — only C-L2 can
fire) the empty-lines rule reports the last line and the score is 98.0,
not an empty violation list with 100.0. -/
theorem C3_counterexample :
    (Mono.analyzeFile (Mono.registeredRules 1) 1 (str "main.c") cleanContent).violations
      = [endOfFileViol] ∧
    (Mono.analyzeFile (Mono.registeredRules 1) 1 (str "main.c") cleanContent).score = 98 ∧
    [endOfFileViol] ≠ ([] : List Violation) ∧ (98 : ℚ) ≠ 100 := by
  refine ⟨by decide, ?_, by decide, by norm_num⟩
  have h : ((Mono.registeredRules 1).flatMap fun t =>
      if Mono.levelOf t ≤ 1 then Mono.checkOf t ⟨str "main.c", splitNl cleanContent,
        Mono.extractFunctions (splitNl cleanContent)⟩ else []) = [endOfFileViol] := by
    decide
  show Mono.score ((Mono.registeredRules 1).flatMap fun t =>
    if Mono.levelOf t ≤ 1 then Mono.checkOf t ⟨str "main.c", splitNl cleanContent,
      Mono.extractFunctions (splitNl cleanContent)⟩ else []) = 98
  rw [h]
  norm_num [Mono.score, endOfFileViol]

/-- Claim C3 (corrected), amended: analyzed through the package pipeline
(whose scanner drops the trailing newline), scenario D yields a FileResult
with an empty violation list and score 100.0 at every verification level;
through the monolithic pipeline the trailing newline leaves a fifth, blank
line, one minor C-L2 violation and score 98.0 (see the counterexample). -/
theorem C3_amended_clean_file (level : Nat) :
    Pkg.AnalyzeFile readCleanFile (str "main.c") level
      = some ⟨str "main.c", [], 100, 4⟩ := by
  have hshape : Pkg.AnalyzeFile readCleanFile (str "main.c") level
      = some (Pkg.analyzeLines (str "main.c") (scanLines cleanContent) level) := rfl
  rw [hshape]
  have hlines : scanLines cleanContent = cleanLines := by decide
  rw [hlines]
  have hv : Pkg.checkAll Pkg.rules ⟨str "main.c", cleanLines⟩ level = [] := by
    refine checkAll_eq_nil _ _ _ ?_
    intro r hr
    simp only [Pkg.rules, List.mem_cons, List.mem_singleton, List.not_mem_nil,
      or_false] at hr
    rcases hr with rfl | rfl | rfl | rfl | rfl | rfl | rfl | rfl | rfl | rfl | rfl | rfl |
      rfl | rfl | rfl <;> decide
  have hlen : cleanLines.length = 4 := by decide
  simp only [Pkg.analyzeLines]
  rw [hv, hlen]
  norm_num [Pkg.calculateScore]

/-- Claim C7 (corrected), counterexample: the monolith iterates its rule
map, whose iteration order Go leaves unspecified and varies between
iterations; two permitted orders of the same registered rules give the
same two violations in different orders on the same unchanged file, so the
FileResults are not identical. -/
theorem C7_counterexample :
    swappedOrder.Perm (Mono.registeredRules 1) ∧
    (Mono.analyzeFile (Mono.registeredRules 1) 1 (str "ok.c") twoRuleContent).violations
      = [spaceViol, macroViol] ∧
    (Mono.analyzeFile swappedOrder 1 (str "ok.c") twoRuleContent).violations
      = [macroViol, spaceViol] ∧
    [spaceViol, macroViol] ≠ [macroViol, spaceViol] :=
  ⟨by decide, by decide, by decide, by decide⟩

/-- Claim C7 (corrected), amended: monolith rule evaluation is a pure
function of the file content, the level and the map iteration order; any
two iteration orders that are permutations of one another yield the same
filename, line count and score and violation lists equal up to
permutation, but the order of the violations — and hence FileResult
identity — is only guaranteed up to that permutation.  (The package
registry, a slice, is always iterated in registration order and so is
fully deterministic.) -/
theorem C7_amended_determinism (order1 order2 : List Mono.RuleTag) (level : Nat)
    (filename content : Line) (h : order1.Perm order2) :
    (Mono.analyzeFile order1 level filename content).violations.Perm
      (Mono.analyzeFile order2 level filename content).violations ∧
    (Mono.analyzeFile order1 level filename content).score
      = (Mono.analyzeFile order2 level filename content).score ∧
    (Mono.analyzeFile order1 level filename content).filename
      = (Mono.analyzeFile order2 level filename content).filename ∧
    (Mono.analyzeFile order1 level filename content).lineCount
      = (Mono.analyzeFile order2 level filename content).lineCount := by
  have hperm : (order1.flatMap fun t =>
      if Mono.levelOf t ≤ level then Mono.checkOf t
        ⟨filename, splitNl content, Mono.extractFunctions (splitNl content)⟩ else []).Perm
      (order2.flatMap fun t =>
        if Mono.levelOf t ≤ level then Mono.checkOf t
          ⟨filename, splitNl content, Mono.extractFunctions (splitNl content)⟩ else []) :=
    List.Perm.flatMap_right _ h
  refine ⟨hperm, ?_, rfl, rfl⟩
  show Mono.score _ = Mono.score _
  rw [score_eq_max, score_eq_max, (hperm.map penalty).sum_eq]

/-- Witness for C7's amended theorem at the two concrete iteration
orders. -/
theorem C7_amended_determinism_witness :
    (Mono.analyzeFile swappedOrder 1 (str "ok.c") twoRuleContent).violations.Perm
      (Mono.analyzeFile (Mono.registeredRules 1) 1 (str "ok.c") twoRuleContent).violations ∧
    (Mono.analyzeFile swappedOrder 1 (str "ok.c") twoRuleContent).score
      = (Mono.analyzeFile (Mono.registeredRules 1) 1 (str "ok.c") twoRuleContent).score ∧
    (Mono.analyzeFile swappedOrder 1 (str "ok.c") twoRuleContent).filename
      = (Mono.analyzeFile (Mono.registeredRules 1) 1 (str "ok.c") twoRuleContent).filename ∧
    (Mono.analyzeFile swappedOrder 1 (str "ok.c") twoRuleContent).lineCount
      = (Mono.analyzeFile (Mono.registeredRules 1) 1 (str "ok.c") twoRuleContent).lineCount :=
  C7_amended_determinism swappedOrder (Mono.registeredRules 1) 1 (str "ok.c")
    twoRuleContent (by decide)

theorem consecEmptyMono_ne_nil (i : Nat) (lines : List Line) :
    Mono.consecEmptyMono i lines ≠ [] ↔ hasConsecBlank lines = true := by
  induction lines generalizing i with
  | nil => simp [Mono.consecEmptyMono, hasConsecBlank]
  | cons a rest ih =>
    cases rest with
    | nil => simp [Mono.consecEmptyMono, hasConsecBlank]
    | cons b rest2 =>
      by_cases h : blankLine a && blankLine b
      · simp [Mono.consecEmptyMono, hasConsecBlank, h]
      · simp only [Mono.consecEmptyMono, hasConsecBlank, h, if_neg, Bool.false_or,
          List.nil_append]
        exact ih (i + 1)

theorem consecEmptyPkg_ne_nil (i : Nat) (lines : List Line) :
    Pkg.consecEmptyPkg i lines ≠ [] ↔ hasConsecBlank lines = true := by
  induction lines generalizing i with
  | nil => simp [Pkg.consecEmptyPkg, hasConsecBlank]
  | cons a rest ih =>
    cases rest with
    | nil => simp [Pkg.consecEmptyPkg, hasConsecBlank]
    | cons b rest2 =>
      by_cases h : blankLine a && blankLine b
      · simp [Pkg.consecEmptyPkg, hasConsecBlank, h]
      · simp only [Pkg.consecEmptyPkg, hasConsecBlank, h, if_neg, Bool.false_or,
          List.nil_append]
        exact ih (i + 1)

theorem hasConsecBlank_iff (lines : List Line) :
    hasConsecBlank lines = true ↔
      ∃ i, i + 1 < lines.length ∧ blankLine (lines.getD i [])
        ∧ blankLine (lines.getD (i + 1) []) := by
  induction lines with
  | nil =>
    simp only [hasConsecBlank, List.length_nil]
    constructor
    · intro h; cases h
    · rintro ⟨i, hi, -⟩; omega
  | cons a rest ih =>
    cases rest with
    | nil =>
      simp only [hasConsecBlank, List.length_cons, List.length_nil]
      constructor
      · intro h; cases h
      · rintro ⟨i, hi, -⟩; omega
    | cons b rest2 =>
      have hdef : hasConsecBlank (a :: b :: rest2)
          = ((blankLine a && blankLine b) || hasConsecBlank (b :: rest2)) := rfl
      rw [hdef, Bool.or_eq_true, Bool.and_eq_true]
      constructor
      · rintro (⟨h1, h2⟩ | h2)
        · exact ⟨0, by simp, h1, h2⟩
        · obtain ⟨j, hj, hb1, hb2⟩ := ih.mp h2
          exact ⟨j + 1, by simpa using hj, hb1, hb2⟩
      · rintro ⟨i, hi, hb1, hb2⟩
        cases i with
        | zero =>
          simp only [List.getD_cons_zero] at hb1
          simp only [List.getD_cons_succ, List.getD_cons_zero] at hb2
          exact Or.inl ⟨hb1, hb2⟩
        | succ j =>
          simp only [List.getD_cons_succ] at hb1 hb2
          exact Or.inr (ih.mpr ⟨j, by simpa using hi, hb1, hb2⟩)

theorem append3_ne_nil (A B C : List Violation) :
    (A ++ B ++ C) ≠ [] ↔ A ≠ [] ∨ B ≠ [] ∨ C ≠ [] := by
  rw [ne_eq, List.append_eq_nil, List.append_eq_nil]
  tauto

theorem if_singleton_ne_nil (c : Bool) (v : Violation) :
    (if c then [v] else []) ≠ [] ↔ c = true := by
  cases c <;> simp

theorem getLast?_cons_getLastD (a : Line) (rest : List Line) :
    (a :: rest).getLast? = some ((a :: rest).getLastD []) := by
  rw [List.getLastD_eq_getLast?]
  cases h : (a :: rest).getLast? with
  | none =>
    rw [List.getLast?_eq_none_iff] at h
    cases h
  | some x => rfl

theorem consecEmptyMono_all_minor (i : Nat) (lines : List Line) :
    (Mono.consecEmptyMono i lines).all (fun v => v.severity == "minor") = true := by
  induction lines generalizing i with
  | nil => simp [Mono.consecEmptyMono]
  | cons a rest ih =>
    cases rest with
    | nil => simp [Mono.consecEmptyMono]
    | cons b rest2 =>
      by_cases h : blankLine a && blankLine b <;>
        simp [Mono.consecEmptyMono, h, ih (i + 1)]

theorem consecEmptyPkg_all_major (i : Nat) (lines : List Line) :
    (Pkg.consecEmptyPkg i lines).all (fun v => v.severity == "major") = true := by
  induction lines generalizing i with
  | nil => simp [Pkg.consecEmptyPkg]
  | cons a rest ih =>
    cases rest with
    | nil => simp [Pkg.consecEmptyPkg]
    | cons b rest2 =>
      by_cases h : blankLine a && blankLine b <;>
        simp [Pkg.consecEmptyPkg, h, ih (i + 1)]

theorem mono_empty_lines_ne_nil (fn : Line) (fns : List Mono.FunctionInfo)
    (lines : List Line) :
    Mono.checkEmptyLines ⟨fn, lines, fns⟩ ≠ [] ↔ emptyLinesTrigger lines := by
  show ((if (decide (lines.length > 0) && blankLine (lines.headD [])) then _ else []) ++
      (if (decide (lines.length > 1) && blankLine (lines.getLastD [])) then _ else []) ++
      Mono.consecEmptyMono 0 lines ≠ []) ↔ _
  rw [append3_ne_nil, if_singleton_ne_nil, if_singleton_ne_nil, consecEmptyMono_ne_nil,
    hasConsecBlank_iff]
  simp only [Bool.and_eq_true, decide_eq_true_eq]
  unfold emptyLinesTrigger
  constructor
  · rintro (⟨hl, hb⟩ | ⟨hl, hb⟩ | hc)
    · cases lines with
      | nil => simp at hl
      | cons a rest => exact Or.inl ⟨a, rest, rfl, hb⟩
    · cases lines with
      | nil => simp at hl
      | cons a rest =>
        exact Or.inr (Or.inl ⟨(a :: rest).getLastD [], getLast?_cons_getLastD a rest, hb⟩)
    · exact Or.inr (Or.inr hc)
  · rintro (⟨a, rest, rfl, hb⟩ | ⟨a, ha, hb⟩ | hc)
    · exact Or.inl ⟨by simp, by simpa using hb⟩
    · by_cases hlen : lines.length > 1
      · refine Or.inr (Or.inl ⟨hlen, ?_⟩)
        rw [List.getLastD_eq_getLast?, ha]
        exact hb
      · cases lines with
        | nil => rw [List.getLast?_eq_none_iff.mpr rfl] at ha; cases ha
        | cons x rest =>
          cases rest with
          | nil =>
            have hx : x = a := by
              have := getLast?_cons_getLastD x []
              rw [ha] at this
              simpa using this.symm
            exact Or.inl ⟨by simp, by simpa [hx] using hb⟩
          | cons y rest2 => simp at hlen
    · exact Or.inr (Or.inr hc)

theorem pkg_empty_lines_ne_nil (fn : Line) (lines : List Line) :
    Pkg.EmptyLinesRule.check ⟨fn, lines⟩ ≠ [] ↔ emptyLinesTrigger lines := by
  cases lines with
  | nil =>
    constructor
    · intro h; exact absurd rfl h
    · rintro (⟨a, rest, h, -⟩ | ⟨a, ha, -⟩ | ⟨i, hi, -⟩)
      · cases h
      · cases ha
      · simp at hi
  | cons x rest =>
    show ((if blankLine ((x :: rest).headD []) then _ else []) ++
        (if blankLine ((x :: rest).getLastD []) then _ else []) ++
        Pkg.consecEmptyPkg 0 (x :: rest) ≠ []) ↔ _
    rw [append3_ne_nil, if_singleton_ne_nil, if_singleton_ne_nil, consecEmptyPkg_ne_nil,
      hasConsecBlank_iff]
    unfold emptyLinesTrigger
    constructor
    · rintro (hb | hb | hc)
      · exact Or.inl ⟨x, rest, rfl, hb⟩
      · exact Or.inr (Or.inl ⟨(x :: rest).getLastD [], getLast?_cons_getLastD x rest, hb⟩)
      · exact Or.inr (Or.inr hc)
    · rintro (⟨a, rest2, heq, hb⟩ | ⟨a, ha, hb⟩ | hc)
      · cases heq
        exact Or.inl (by simpa using hb)
      · refine Or.inr (Or.inl ?_)
        rw [List.getLastD_eq_getLast?, ha]
        exact hb
      · exact Or.inr (Or.inr hc)

/-- Claim C4 (corrected), counterexample: the package `EmptyLinesRule`
emits severity "major", not "minor" — here on a file whose first line is
blank. -/
theorem C4_counterexample :
    (Pkg.EmptyLinesRule.check ⟨str "a.c", [str "", str "x"]⟩).map
        (fun v => v.severity) = ["major"] ∧
    ("major" : String) ≠ "minor" :=
  ⟨by decide, by decide⟩

/-- Claim C4 (corrected), amended: both implementations of the empty-lines
rule (C-L2) emit a violation exactly when the first line is blank after
trimming, or the last line is blank after trimming, or two consecutive
lines are blank; but only the monolith's `checkEmptyLines` emits severity
minor throughout — the package `EmptyLinesRule` emits major throughout. -/
theorem C4_amended_empty_lines (fn : Line) (fns : List Mono.FunctionInfo)
    (lines : List Line) :
    (Mono.checkEmptyLines ⟨fn, lines, fns⟩ ≠ [] ↔ emptyLinesTrigger lines) ∧
    (Mono.checkEmptyLines ⟨fn, lines, fns⟩).all (fun v => v.severity == "minor") = true ∧
    (Pkg.EmptyLinesRule.check ⟨fn, lines⟩ ≠ [] ↔ emptyLinesTrigger lines) ∧
    (Pkg.EmptyLinesRule.check ⟨fn, lines⟩).all (fun v => v.severity == "major") = true := by
  refine ⟨mono_empty_lines_ne_nil fn fns lines, ?_, pkg_empty_lines_ne_nil fn lines, ?_⟩
  · unfold Mono.checkEmptyLines
    dsimp only
    rw [List.all_append, List.all_append]
    refine Bool.and_eq_true_iff.mpr ⟨Bool.and_eq_true_iff.mpr ⟨?_, ?_⟩, ?_⟩ <;>
      first
        | exact consecEmptyMono_all_minor 0 lines
        | split <;> simp
  · unfold Pkg.EmptyLinesRule.check
    dsimp only
    split
    · simp
    · rw [List.all_append, List.all_append]
      refine Bool.and_eq_true_iff.mpr ⟨Bool.and_eq_true_iff.mpr ⟨?_, ?_⟩, ?_⟩ <;>
        first
          | exact consecEmptyPkg_all_major 0 lines
          | split <;> simp

theorem scoreFoldAdd (l : List FileResult) : ∀ a : ℚ,
    l.foldl (fun acc r => acc + r.score) a = a + (l.map FileResult.score).sum := by
  induction l with
  | nil => intro a; simp
  | cons r rest ih => intro a; simp [List.foldl_cons, ih, add_assoc]

theorem analyzePath_fold (read : Line → Option Line) (order : List Mono.RuleTag)
    (level : Nat) :
    ∀ (fs : List Line) (rs : List FileResult) (ts : ℚ) (n L V C : Nat),
      fs.foldl (fun (rep : Mono.Report) (file : Line) =>
        match read file with
        | none => rep
        | some content =>
          let result := Mono.analyzeFile order level file content
          { rep with
            files := rep.files ++ [result],
            totalFiles := rep.totalFiles + 1,
            totalLines := rep.totalLines + result.lineCount,
            totalViolations := rep.totalViolations + result.violations.length,
            cleanFiles := rep.cleanFiles + (if result.violations.length = 0 then 1 else 0) })
        ⟨rs, ts, n, L, V, C⟩
      = ⟨rs ++ (fs.filterMap fun f => (read f).map (Mono.analyzeFile order level f)),
         ts,
         n + (fs.filterMap fun f => (read f).map (Mono.analyzeFile order level f)).length,
         L + ((fs.filterMap fun f => (read f).map (Mono.analyzeFile order level f)).map
               FileResult.lineCount).sum,
         V + ((fs.filterMap fun f => (read f).map (Mono.analyzeFile order level f)).map
               fun r => r.violations.length).sum,
         C + (fs.filterMap fun f => (read f).map (Mono.analyzeFile order level f)).countP
               fun r => r.violations.isEmpty⟩ := by
  intro fs
  induction fs with
  | nil => intro rs ts n L V C; simp
  | cons f rest ih =>
    intro rs ts n L V C
    cases hf : read f with
    | none =>
      simp only [List.foldl_cons, hf, List.filterMap_cons, Option.map_none']
      exact ih rs ts n L V C
    | some content =>
      simp only [List.foldl_cons, hf, List.filterMap_cons, Option.map_some']
      rw [ih]
      have hclean : (if (Mono.analyzeFile order level f content).violations.length = 0
          then 1 else 0)
          = (if (Mono.analyzeFile order level f content).violations.isEmpty then 1 else 0) := by
        cases (Mono.analyzeFile order level f content).violations <;> simp
      simp only [Mono.Report.mk.injEq, hclean, List.map_cons, List.sum_cons,
        List.countP_cons, List.length_cons]
      exact ⟨by simp, trivial, by omega, by omega, by omega, by omega⟩

/-- Claim C9 (corrected), counterexample: in the package CLI
(`cmd/epicstyle` `analyzeTarget`) a discovered file whose read fails is not
skipped — the whole batch aborts with the error — while the monolith's
`AnalyzePath` does skip it and completes; here `good.c` reads fine and
`bad.c` fails. -/
theorem C9_counterexample :
    (Pkg.AnalyzeFile readOneBad (str "good.c") 1).isSome = true ∧
    Pkg.analyzeTarget readOneBad 1 [str "good.c", str "bad.c"] = Except.error () ∧
    (Mono.AnalyzePath readOneBad (Mono.registeredRules 1) 1
        [str "good.c", str "bad.c"]).totalFiles = 1 ∧
    (Mono.AnalyzePath readOneBad (Mono.registeredRules 1) 1
        [str "good.c", str "bad.c"]).files.length = 1 :=
  ⟨rfl, rfl, rfl, rfl⟩

/-- Claim C9 (corrected), amended: in the monolith's `AnalyzePath` a
discovered file that fails to read is skipped — the report is exactly the
aggregate over the files whose read succeeded, so the failed file appears
in no list and no total, is not counted as clean, and the batch always
completes; but in `cmd/epicstyle`'s `analyzeTarget` a per-file read failure
is returned as an error and aborts the whole batch (see the
counterexample). -/
theorem C9_amended_read_failures (read : Line → Option Line) (order : List Mono.RuleTag)
    (level : Nat) (files : List Line) :
    Mono.AnalyzePath read order level files
      = reportOf (files.filterMap fun f => (read f).map (Mono.analyzeFile order level f)) ∧
    (Pkg.analyzeTarget read level files = Except.error ()
      ↔ ∃ f ∈ files, read f = none) := by
  constructor
  · have h0 := analyzePath_fold read order level files [] 0 0 0 0 0
    unfold Mono.AnalyzePath
    dsimp only
    rw [h0]
    simp only [List.nil_append, Nat.zero_add, Nat.add_zero, zero_add]
    by_cases hlen :
        (files.filterMap fun f => (read f).map (Mono.analyzeFile order level f)).length > 0
    · rw [if_pos hlen]
      unfold reportOf
      rw [if_neg (by omega)]
      simp only [Mono.Report.mk.injEq]
      refine ⟨trivial, ?_, trivial, trivial, trivial, trivial⟩
      rw [scoreFoldAdd]
      simp
    · rw [if_neg hlen]
      unfold reportOf
      rw [if_pos (by omega)]
  · induction files with
    | nil =>
      constructor
      · intro h
        cases h
      · rintro ⟨f, hf, -⟩
        cases hf
    | cons f rest ih =>
      cases hf : read f with
      | none =>
        constructor
        · intro _
          exact ⟨f, List.mem_cons_self f rest, hf⟩
        · intro _
          show (match Pkg.AnalyzeFile read f level with
                | none => Except.error ()
                | some r => (Pkg.analyzeTarget read level rest).map fun rs => r :: rs)
              = Except.error ()
          rw [show Pkg.AnalyzeFile read f level = none from by simp [Pkg.AnalyzeFile, hf]]
      | some content =>
        have hA : Pkg.AnalyzeFile read f level
            = some (Pkg.analyzeLines f (scanLines content) level) := by
          simp [Pkg.AnalyzeFile, hf]
        have hstep : Pkg.analyzeTarget read level (f :: rest)
            = (Pkg.analyzeTarget read level rest).map
                (fun rs => Pkg.analyzeLines f (scanLines content) level :: rs) := by
          show (match Pkg.AnalyzeFile read f level with
                | none => Except.error ()
                | some r => (Pkg.analyzeTarget read level rest).map fun rs => r :: rs) = _
          rw [hA]
        rw [hstep]
        cases ht : Pkg.analyzeTarget read level rest with
        | error e =>
          cases e
          constructor
          · intro _
            obtain ⟨g, hg, hgr⟩ := ih.mp ht
            exact ⟨g, List.mem_cons_of_mem f hg, hgr⟩
          · intro _
            rfl
        | ok rs =>
          constructor
          · intro h
            exact Except.noConfusion h
          · rintro ⟨g, hg, hgr⟩
            rcases List.mem_cons.mp hg with rfl | hg2
            · rw [hf] at hgr
              cases hgr
            · have := ih.mpr ⟨g, hg2, hgr⟩
              rw [ht] at this
              exact Except.noConfusion this

theorem detect_fields (i : Nat) (line : Line) (next? : Option Line)
    (f : Mono.FunctionInfo) (h : Mono.detectSignature i line next? = some f) :
    f.startLine = i + 1 ∧ f.endLine = 0 := by
  unfold Mono.detectSignature at h
  simp only [] at h
  repeat' split at h
  all_goals
    first
      | exact Option.noConfusion h
      | (injection h with h2; rw [← h2]; exact ⟨rfl, rfl⟩)

theorem extract_count (ls : List Line) :
    ∀ (i : Nat) (bc : Int) (cur : Option Mono.FunctionInfo),
      (Mono.extractAux i bc cur ls).length + (Mono.extractFinal i bc cur ls).isSome.toNat
        + Mono.overlapEvents i bc cur ls
        = Mono.sigEvents i ls + cur.isSome.toNat := by
  induction ls with
  | nil =>
    intro i bc cur
    simp [Mono.extractAux, Mono.extractFinal, Mono.overlapEvents, Mono.sigEvents]
  | cons line rest ih =>
    intro i bc cur
    simp only [Mono.extractAux, Mono.extractFinal, Mono.overlapEvents, Mono.sigEvents]
    cases hd : Mono.detectSignature i line rest.head? with
    | none =>
      cases cur with
      | none =>
        simp only [hd]
        have := ih (i + 1) (bc + (countChar '{' line : Int) - (countChar '}' line : Int)) none
        simp at this ⊢
        omega
      | some f =>
        simp only [hd]
        split
        · have := ih (i + 1)
            (bc + (countChar '{' line : Int) - (countChar '}' line : Int)) none
          simp at this ⊢
          omega
        · have := ih (i + 1)
            (bc + (countChar '{' line : Int) - (countChar '}' line : Int)) (some f)
          simp at this ⊢
          omega
    | some g =>
      cases cur with
      | none =>
        simp only [hd]
        split
        · have := ih (i + 1)
            (bc + (countChar '{' line : Int) - (countChar '}' line : Int)) none
          simp at this ⊢
          omega
        · have := ih (i + 1)
            (bc + (countChar '{' line : Int) - (countChar '}' line : Int)) (some g)
          simp at this ⊢
          omega
      | some f =>
        simp only [hd]
        split
        · have := ih (i + 1)
            (bc + (countChar '{' line : Int) - (countChar '}' line : Int)) none
          simp at this ⊢
          omega
        · have := ih (i + 1)
            (bc + (countChar '{' line : Int) - (countChar '}' line : Int)) (some g)
          simp at this ⊢
          omega

theorem extract_mem_bounds (ls : List Line) :
    ∀ (i : Nat) (bc : Int) (cur : Option Mono.FunctionInfo),
      (∀ f, cur = some f → 1 ≤ f.startLine ∧ f.startLine ≤ i) →
      ∀ g ∈ Mono.extractAux i bc cur ls, 1 ≤ g.startLine ∧ g.startLine ≤ g.endLine := by
  induction ls with
  | nil =>
    intro i bc cur _ g hg
    simp [Mono.extractAux] at hg
  | cons line rest ih =>
    intro i bc cur hcur g hg
    cases hd : Mono.detectSignature i line rest.head? with
    | none =>
      cases cur with
      | none =>
        simp only [Mono.extractAux, hd] at hg
        exact ih (i + 1) _ none (by intro f h; cases h) g hg
      | some f =>
        have hf := hcur f rfl
        simp only [Mono.extractAux, hd] at hg
        split at hg
        · rcases List.mem_cons.mp hg with rfl | hg2
          · exact ⟨hf.1, by simp; omega⟩
          · exact ih (i + 1) _ none (by intro f' h; cases h) g hg2
        · refine ih (i + 1) _ (some f) ?_ g hg
          intro f' h
          injection h with h2
          rw [← h2]
          exact ⟨hf.1, by omega⟩
    | some d =>
      have hdf := detect_fields i line rest.head? d hd
      cases cur with
      | none =>
        simp only [Mono.extractAux, hd] at hg
        split at hg
        · rcases List.mem_cons.mp hg with rfl | hg2
          · exact ⟨by simp; omega, by simp [hdf.1]⟩
          · exact ih (i + 1) _ none (by intro f' h; cases h) g hg2
        · refine ih (i + 1) _ (some d) ?_ g hg
          intro f' h
          injection h with h2
          rw [← h2]
          omega
      | some f =>
        simp only [Mono.extractAux, hd] at hg
        split at hg
        · rcases List.mem_cons.mp hg with rfl | hg2
          · exact ⟨by simp; omega, by simp [hdf.1]⟩
          · exact ih (i + 1) _ none (by intro f' h; cases h) g hg2
        · refine ih (i + 1) _ (some d) ?_ g hg
          intro f' h
          injection h with h2
          rw [← h2]
          omega

theorem extract_final_endLine (ls : List Line) :
    ∀ (i : Nat) (bc : Int) (cur : Option Mono.FunctionInfo),
      (∀ f, cur = some f → f.endLine = 0) →
      ∀ f, Mono.extractFinal i bc cur ls = some f → f.endLine = 0 := by
  induction ls with
  | nil =>
    intro i bc cur hcur f hf
    exact hcur f hf
  | cons line rest ih =>
    intro i bc cur hcur f hf
    cases hd : Mono.detectSignature i line rest.head? with
    | none =>
      cases cur with
      | none =>
        simp only [Mono.extractFinal, hd] at hf
        exact ih (i + 1) _ none (by intro f' h; cases h) f hf
      | some g =>
        simp only [Mono.extractFinal, hd] at hf
        split at hf
        · exact ih (i + 1) _ none (by intro f' h; cases h) f hf
        · refine ih (i + 1) _ (some g) ?_ f hf
          intro f' h
          injection h with h2
          rw [← h2]
          exact hcur g rfl
    | some d =>
      have hdf := detect_fields i line rest.head? d hd
      cases cur with
      | none =>
        simp only [Mono.extractFinal, hd] at hf
        split at hf
        · exact ih (i + 1) _ none (by intro f' h; cases h) f hf
        · refine ih (i + 1) _ (some d) ?_ f hf
          intro f' h
          injection h with h2
          rw [← h2]
          exact hdf.2
      | some g =>
        simp only [Mono.extractFinal, hd] at hf
        split at hf
        · exact ih (i + 1) _ none (by intro f' h; cases h) f hf
        · refine ih (i + 1) _ (some d) ?_ f hf
          intro f' h
          injection h with h2
          rw [← h2]
          exact hdf.2

/-- Claim C8 (corrected), counterexample: a balanced-brace line sequence
with two detected signature lines on which the extractor returns only one
finalized record — the second detection overwrites the still-open first
function. -/
theorem C8_counterexample :
    Mono.sigEvents 0 overlapLines = 2 ∧
    (overlapLines.map (countChar '{')).sum = (overlapLines.map (countChar '}')).sum ∧
    (Mono.extractFunctions overlapLines).length = 1 ∧ (1 : Nat) ≠ 2 :=
  ⟨by decide, by decide, by decide, by decide⟩

/-- Claim C8 (corrected), amended: the number of finalized FunctionInfo
records, plus one if a function is still open at the end of the lines, plus
the number of detections that fired while a function was still open
(overwriting it), equals the number of detected signature lines — so the
claimed one-record-per-signature equality holds exactly when no detection
overwrites an open function and the final function's closing brace is
found.  Every finalized record has `1 ≤ start_line ≤ end_line`, and when
the run ends with a function still open (for example when the final closing
brace is missing) that function has no end line and is omitted from the
result. -/
theorem C8_amended_extractor (lines : List Line) :
    (Mono.extractFunctions lines).length + (Mono.extractFinal 0 0 none lines).isSome.toNat
        + Mono.overlapEvents 0 0 none lines = Mono.sigEvents 0 lines ∧
    (∀ g ∈ Mono.extractFunctions lines, 1 ≤ g.startLine ∧ g.startLine ≤ g.endLine) ∧
    (∀ f, Mono.extractFinal 0 0 none lines = some f →
        f.endLine = 0 ∧ f ∉ Mono.extractFunctions lines) := by
  refine ⟨?_, ?_, ?_⟩
  · have h := extract_count lines 0 0 none
    simpa using h
  · exact extract_mem_bounds lines 0 0 none (by intro f h; cases h)
  · intro f hf
    have he := extract_final_endLine lines 0 0 none (by intro g h; cases h) f hf
    refine ⟨he, ?_⟩
    intro hmem
    have hb := extract_mem_bounds lines 0 0 none (by intro g h; cases h) f hmem
    omega

/-- Witness for C8's amended theorem: a fully closed one-function file, and
the same file truncated before its closing brace, whose open function is
omitted. -/
theorem C8_amended_extractor_witness :
    (Mono.extractFunctions oneFuncLines).length
        + (Mono.extractFinal 0 0 none oneFuncLines).isSome.toNat
        + Mono.overlapEvents 0 0 none oneFuncLines = Mono.sigEvents 0 oneFuncLines ∧
    (1 ≤ (⟨str "f", 1, 3, 0⟩ : Mono.FunctionInfo).startLine ∧
      (⟨str "f", 1, 3, 0⟩ : Mono.FunctionInfo).startLine
        ≤ (⟨str "f", 1, 3, 0⟩ : Mono.FunctionInfo).endLine) ∧
    ((⟨str "f", 1, 0, 0⟩ : Mono.FunctionInfo).endLine = 0 ∧
      (⟨str "f", 1, 0, 0⟩ : Mono.FunctionInfo) ∉ Mono.extractFunctions truncatedLines) :=
  ⟨(C8_amended_extractor oneFuncLines).1,
   (C8_amended_extractor oneFuncLines).2.1 ⟨str "f", 1, 3, 0⟩ (by decide),
   (C8_amended_extractor truncatedLines).2.2 ⟨str "f", 1, 0, 0⟩ (by decide)⟩

end EpicStyle
